import Mathlib

/-!
Shallow embedding of the Lampshade repository core:
`BrushDensityParser.load_density`, `RegimeClassifier`, and the final-variant
recursive bisection driver `run_rcb_sbatch` (`recursive_bisect`, `sample_coord`,
`run_in_subdir`).

Numeric values are modelled as rationals; machine floats do not enter any of
the settled properties except through exact halving and exact comparisons, both
of which the claims themselves state over real arithmetic.
-/

namespace Lampshade

/- ===================== BrushDensityParser.load_density ===================== -/

/-- A line of a LAMMPS ave/chunk output file, as `load_density` sees it.
`timestep` lines begin with a digit at column 0 and are removed by the regex
substitution re.sub of pattern newline-digit-rest with the empty string; `comment` lines begin with `#` and are
skipped by `np.loadtxt`; `dataRow` lines are the whitespace-delimited numeric
chunk records (they begin with whitespace, so the regex leaves them alone). -/
inductive LogLine where
  | timestep (cols : List ℚ)
  | comment
  | dataRow (cols : List ℚ)

/-- The numeric rows surviving the regex strip and the `loadtxt` comment skip. -/
def dataRows : List LogLine → List (List ℚ)
  | [] => []
  | LogLine.dataRow c :: rest => c :: dataRows rest
  | _ :: rest => dataRows rest

/-- Projection of one numeric row onto columns 0, 1 and 3
(`np.loadtxt(..., usecols=(0, 1, 3))`). -/
def proj (r : List ℚ) : List ℚ := [r.getD 0 0, r.getD 1 0, r.getD 3 0]

/-- One row through `np.loadtxt` with `usecols=(0, 1, 3)`: a row with fewer
than 4 columns makes `loadtxt` raise `ValueError`. -/
def usecols (r : List ℚ) : Except String (List ℚ) :=
  if 4 ≤ r.length then Except.ok (proj r) else Except.error ("ValueError")

/-- All rows through `np.loadtxt`, failing on the first malformed row. -/
def parseRows : List (List ℚ) → Except String (List (List ℚ))
  | [] => Except.ok []
  | r :: rest =>
    match usecols r, parseRows rest with
    | Except.ok r', Except.ok rest' => Except.ok (r' :: rest')
    | Except.error e, _ => Except.error e
    | _, Except.error e => Except.error e

/-- Flat indices of the rows whose column 0 equals 1:
`np.nonzero(data[:, 0] == 1)[0]`. -/
def oneIdxs : List (List ℚ) → List ℕ
  | [] => []
  | r :: rest =>
    if r.getD 0 0 = 1 then 0 :: (oneIdxs rest).map (· + 1)
    else (oneIdxs rest).map (· + 1)

/-- Splits a list into consecutive groups of exactly `B` elements, with a fuel
argument (any fuel at least the list length gives the intended behaviour);
`none` models the `ValueError` that `ndarray.reshape((-1, B, 3))` raises when
`B` does not evenly divide the row count. -/
def chunkAux (B : ℕ) : ℕ → List α → Option (List (List α))
  | _, [] => some []
  | 0, _ :: _ => none
  | fuel + 1, x :: xs =>
    if (x :: xs).length < B then none
    else (chunkAux B fuel ((x :: xs).drop B)).map (fun cs => (x :: xs).take B :: cs)

/-- The reshape `data.reshape((-1, num_chunks, 3))` applied to the flat row
list. -/
def chunkExact (B : ℕ) (l : List α) : Option (List (List α)) :=
  if B = 0 then (if l.isEmpty then some [] else none) else chunkAux B l.length l

/-- BrushDensityParser.load_density: strip timestep lines, parse columns
(0, 1, 3), infer the per-sample bin count as the flat index of the second
occurrence of bin_index 1 (`np.nonzero(data[:, 0] == 1)[0][1]`, which raises
`IndexError` when no second occurrence exists), then reshape. -/
def load_density (log : List LogLine) : Except String (List (List (List ℚ))) :=
  match parseRows (dataRows log) with
  | Except.error e => Except.error e
  | Except.ok data =>
    match (oneIdxs data)[1]? with
    | none => Except.error ("IndexError")
    | some num_chunks =>
      match chunkExact num_chunks data with
      | none => Except.error ("ValueError")
      | some arr => Except.ok arr

/-- Concatenation of a list of time samples into the flat row list, as they
appear in the file. -/
def flattenRows : List (List α) → List α
  | [] => []
  | s :: rest => s ++ flattenRows rest

/- ===================== RegimeClassifier ===================== -/

/-- np.mean over a list of samples; numpy yields NaN (with a RuntimeWarning
that is not an exception) on an empty slice, which is encoded as `none`. -/
def npMean (l : List ℚ) : Option ℚ :=
  if l.isEmpty then none else some (l.sum / l.length)

/-- Time samples surviving the equilibration trim: the slice
`np.s_[ta_trim:, :, :]` of `RegimeClassifier.__init__`. -/
def contributing (dens : List (List ℚ)) (ta_trim : ℕ) : ℕ :=
  (dens.drop ta_trim).length

/-- Per-bin time average computed by `RegimeClassifier.__init__`
(`np.mean(dens[ta_trim:], axis=0)` at spatial bin `b`); `none` encodes the NaN
that numpy produces when the trimmed slice is empty. -/
def time_average (dens : List (List ℚ)) (ta_trim b : ℕ) : Option ℚ :=
  npMean ((dens.drop ta_trim).map (fun row => row.getD b 0))

/-- np.trapz with unit spacing over the density column of a profile slice. -/
def trapz : List ℚ → ℚ
  | a :: b :: rest => (a + b) / 2 + trapz (b :: rest)
  | _ => 0

/-- Sum of squared per-bin confidence values over a slice. -/
def sq_sum (l : List ℚ) : ℚ := (l.map (fun x => x ^ 2)).sum

/-- RegimeClassifier._get_area: the trapezoidal integral of the sliced solvent
density together with the propagated error. The code takes the square root of
the summed squared confidence values; the square root is irrational, so this
model carries the square of that error (the claims settled here only use the
area component). -/
def get_area (ta_slice ci_slice : List ℚ) : ℚ × ℚ :=
  (trapz ta_slice, sq_sum ci_slice)

/-- RegimeClassifier.get_solv_area_in: `_get_area(np.s_[:inflection])`. The
inflection index is computed in the code by `get_poly_inflection` (a
Savitzky-Golay first-derivative argmin, a scipy numerical routine); it enters
the area functions only as the slice boundary, so it is taken as a
parameter. -/
def get_solv_area_in (solv_ta solv_ci : List ℚ) (infl : ℕ) : ℚ × ℚ :=
  get_area (solv_ta.take infl) (solv_ci.take infl)

/-- RegimeClassifier.get_solv_area_out: `_get_area(np.s_[inflection:])`. -/
def get_solv_area_out (solv_ta solv_ci : List ℚ) (infl : ℕ) : ℚ × ℚ :=
  get_area (solv_ta.drop infl) (solv_ci.drop infl)

/-- Modelled from the spec: the spec variant of `area_inside`, in which the
"inclusive boundary goes to inside", i.e. the integrated range is the bins
`[0, inflection]` including the inflection bin. Written from the words of the spec
for comparison with the `get_solv_area_in` of the code. -/
def area_inside_spec (solv_ta solv_ci : List ℚ) (infl : ℕ) : ℚ × ℚ :=
  get_area (solv_ta.take (infl + 1)) (solv_ci.take (infl + 1))

/-- Modelled from the spec: the spec variant of `area_outside`, integrating
the bins strictly above the inflection bin. -/
def area_outside_spec (solv_ta solv_ci : List ℚ) (infl : ℕ) : ℚ × ℚ :=
  get_area (solv_ta.drop (infl + 1)) (solv_ci.drop (infl + 1))

/-- RegimeClassifier.get_classification: 2 if the inside area exceeds
`in_threshold`, else 1 if the outside area exceeds `out_threshold`, else 0. -/
def get_classification (solv_ta solv_ci : List ℚ) (infl : ℕ)
    (in_threshold out_threshold : ℚ) : ℕ :=
  if in_threshold < (get_solv_area_in solv_ta solv_ci infl).1 then 2
  else if out_threshold < (get_solv_area_out solv_ta solv_ci infl).1 then 1
  else 0

/- ===================== run_rcb_sbatch ===================== -/

/-- A point (epp, eps) of the 2D control-parameter space. -/
abbrev Point := ℚ × ℚ

/-- Squared Euclidean distance. The code tests
`np.linalg.norm(l - r) > RCB_THRESHOLD`; for a nonnegative threshold this is
equivalent to `distSq l r > threshold ^ 2`, which keeps the model inside ℚ. -/
def distSq (l r : Point) : ℚ := (l.1 - r.1) ^ 2 + (l.2 - r.2) ^ 2

/-- Elementwise midpoint `(l + r) / 2`. -/
def midpoint (l r : Point) : Point := ((l.1 + r.1) / 2, (l.2 + r.2) / 2)

/-- Bisection stops once the bracket separation is at or below this. -/
def RCB_THRESHOLD : ℚ := 5 / 100

/-- The ordered regime list of run_rcb_sbatch: absorbed, adsorbed, none. -/
def REGIMES : List ℕ := [2, 1, 0]

/-- Position of a value in a list, `none` when absent: the Python
`list.index`, whose failure raises `ValueError`. -/
def indexInList (c : ℕ) : List ℕ → Option ℕ
  | [] => none
  | x :: rest => if x = c then some 0 else (indexInList c rest).map (· + 1)

/-- Terminal states of one recursive bisection run. `converged` is the
distance-below-threshold exit, `ambiguous` the found-regime-between-boundary
exit, `classifyError` the `ValueError`-turned-`RuntimeError` branch, and
`outOfFuel` a model artifact marking an exhausted recursion-depth bound. -/
inductive Outcome where
  | converged
  | ambiguous
  | classifyError
  | outOfFuel
deriving DecidableEq

/-- run_rcb_sbatch.recursive_bisect. The oracle abstracts `sample_coord`: it
takes the threaded restart-file handle and the midpoint and returns the
classification together with the next restart handle. The second component of
the result counts simulate/classify invocations. `fuel` bounds the recursion
depth; the termination theorem shows a logarithmic fuel suffices. -/
def recursive_bisect (oracle : String → Point → ℕ × String) :
    ℕ → String → Point → Point → ℕ × ℕ → ℚ → Outcome × ℕ
  | 0, _, _, _, _, _ => (Outcome.outOfFuel, 0)
  | fuel + 1, st, l, r, b, thr =>
    if thr ^ 2 < distSq l r then
      let m := midpoint l r
      let res := oracle st m
      match indexInList res.1 REGIMES with
      | some idx =>
        if idx ≤ b.1 then
          let p := recursive_bisect oracle fuel res.2 m r b thr
          (p.1, p.2 + 1)
        else if b.2 ≤ idx then
          let p := recursive_bisect oracle fuel res.2 l m b thr
          (p.1, p.2 + 1)
        else (Outcome.ambiguous, 1)
      | none => (Outcome.classifyError, 1)
    else (Outcome.converged, 0)

/- ===================== run_in_subdir / sample_coord ===================== -/

/-- Abstract filesystem: the deposited output of each `rcb_{epp}_{eps}`
subdirectory, keyed by the parameter point that names it. -/
abbrev FS := List (Point × String)

/-- Lookup of the contents of a subdirectory (`os.path.isdir` plus reading the
deposited files). -/
def fsFind (p : Point) : FS → Option String
  | [] => none
  | (q, c) :: rest => if q = p then some c else fsFind p rest

/-- External collaborators of `sample_coord`: the LAMMPS run spawned by
`run_in_subdir` (input script to deposited output), the `RegimeClassifier`
pipeline applied to the contents of a directory, the input-script builder, and the
restart-filename formatter. -/
structure SimEnv where
  simulate : String → String
  classify : String → ℕ
  mkScript : Point → String → String
  restartName : Point → String

/-- run_rcb_sbatch.run_in_subdir: create the subdirectory and run the
simulation in it, skipping the simulation entirely when the directory already
exists. The boolean records whether the simulator ran. -/
def run_in_subdir (simulate : String → String) (input_script : String)
    (subdir : Point) (fs : FS) : FS × Bool :=
  match fsFind subdir fs with
  | some _ => (fs, false)
  | none => ((subdir, simulate input_script) :: fs, true)

/-- Fallback contents used below only in a provably unreachable branch. -/
def emptyStr : String := ""

/-- run_rcb_sbatch.sample_coord: build the input script, run (or skip) the
simulation in the subdirectory of the point, then classify its
contents; returns (classification, next restart filename) plus the filesystem
and whether the simulator was invoked. -/
def sample_coord (env : SimEnv) (last_restart : String) (p : Point) (fs : FS) :
    (ℕ × String) × FS × Bool :=
  let script := env.mkScript p last_restart
  let out := run_in_subdir env.simulate script p fs
  let content := (fsFind p out.1).getD emptyStr
  ((env.classify content, env.restartName p), out.1, out.2)

/-- Constant-classification oracle used by concrete witnesses. -/
def oracleW : String → Point → ℕ × String := fun st _ => (1, st)

/-- Concrete external collaborators used by a witness. -/
def envW : SimEnv :=
  SimEnv.mk (fun s => s) (fun s => s.length) (fun _ re => re) (fun _ => emptyStr)

/-- Concrete pre-populated filesystem used by a witness. -/
def fsW : FS := [((0, 0), emptyStr)]

/- ===================== helper lemmas ===================== -/

lemma take_set (l : List α) (i : ℕ) (v : α) : (l.set i v).take i = l.take i := by
  ext1 j
  by_cases h : j < i
  · rw [List.getElem?_take_of_lt h, List.getElem?_take_of_lt h,
      List.getElem?_set_ne (by omega)]
  · rw [List.getElem?_eq_none, List.getElem?_eq_none] <;>
      simp [List.length_take] <;> omega

/- ===================== claim theorems ===================== -/

/-- C4: get_classification returns ABSORBED (2) whenever the inside area
exceeds in_threshold (for every profile, hence regardless of the outside
area), else ADSORBED (1) when the outside area exceeds out_threshold, else
NONE (0); the result is always one of 0, 1, 2. -/
theorem get_classification_cases (ta ci : List ℚ) (i : ℕ) (it ot : ℚ) :
    (it < (get_solv_area_in ta ci i).1 → get_classification ta ci i it ot = 2) ∧
    ((get_solv_area_in ta ci i).1 ≤ it → ot < (get_solv_area_out ta ci i).1 →
      get_classification ta ci i it ot = 1) ∧
    ((get_solv_area_in ta ci i).1 ≤ it → (get_solv_area_out ta ci i).1 ≤ ot →
      get_classification ta ci i it ot = 0) ∧
    (get_classification ta ci i it ot = 0 ∨ get_classification ta ci i it ot = 1 ∨
      get_classification ta ci i it ot = 2) := by
  unfold get_classification
  split_ifs with h1 h2 <;>
    refine ⟨?_, ?_, ?_, ?_⟩ <;> intros <;> first | rfl | linarith | tauto

/-- C4 witness: a profile whose inside area is 20 with thresholds (15, 4) is
classified ABSORBED. -/
theorem get_classification_cases_witness :
    get_classification [0, 40, 0] [0, 0, 0] 2 15 4 = 2 :=
  (get_classification_cases [0, 40, 0] [0, 0, 0] 2 15 4).1
    (by norm_num [get_solv_area_in, get_area, trapz])

/-- C5 counterexample: with solvent time-average [0, 4, 0] and inflection
index 1, the inside area computed by the code is 0 (slice [:1], excluding the
inflection bin), while the inclusive-inside reading of the spec gives 2; the
outside area is 2 because the inflection bin goes to the outside slice. -/
theorem solv_area_boundary_counterexample :
    (get_solv_area_in [0, 4, 0] [0, 0, 0] 1).1 = 0 ∧
    (area_inside_spec [0, 4, 0] [0, 0, 0] 1).1 = 2 ∧
    (get_solv_area_in [0, 4, 0] [0, 0, 0] 1).1 ≠
      (area_inside_spec [0, 4, 0] [0, 0, 0] 1).1 ∧
    (get_solv_area_out [0, 4, 0] [0, 0, 0] 1).1 = 2 ∧
    (area_outside_spec [0, 4, 0] [0, 0, 0] 1).1 = 0 := by
  norm_num [get_solv_area_in, get_solv_area_out, area_inside_spec,
    area_outside_spec, get_area, trapz]

/-- C5 (amended): the inclusive boundary goes to the outside integral:
get_solv_area_in integrates only the bins strictly below the inflection index
(changing the profile at the inflection bin leaves it unchanged, and its slice
has no entry at index at or above the inflection index), while the slice of
get_solv_area_out starts exactly at the inflection bin. -/
theorem solv_area_boundary_amended (ta ci : List ℚ) (i : ℕ) (v w : ℚ) :
    get_solv_area_in (ta.set i v) (ci.set i w) i = get_solv_area_in ta ci i ∧
    (ta.drop i)[0]? = ta[i]? ∧
    (∀ j, j < i → (ta.take i)[j]? = ta[j]?) ∧
    (∀ j, i ≤ j → (ta.take i)[j]? = none) := by
  refine ⟨?_, ?_, ?_, ?_⟩
  · unfold get_solv_area_in
    rw [take_set, take_set]
  · rw [List.getElem?_drop]
    norm_num
  · intro j h
    exact List.getElem?_take_of_lt h
  · intro j h
    rw [List.getElem?_eq_none]
    calc (ta.take i).length ≤ i := by simp [List.length_take]
    _ ≤ j := h

/-- C5 witness: the amended statement evaluated at the counterexample profile:
overwriting the inflection bin does not change the inside area, and the inside
slice reproduces bin 0 but has no bin 1. -/
theorem solv_area_boundary_amended_witness :
    get_solv_area_in ([(0 : ℚ), 4, 0].set 1 9) ([(0 : ℚ), 0, 0].set 1 9) 1 =
      get_solv_area_in [0, 4, 0] [0, 0, 0] 1 ∧
    ([(0 : ℚ), 4, 0].take 1)[0]? = [(0 : ℚ), 4, 0][0]? ∧
    ([(0 : ℚ), 4, 0].take 1)[1]? = none :=
  ⟨(solv_area_boundary_amended [0, 4, 0] [0, 0, 0] 1 9 9).1,
   (solv_area_boundary_amended [0, 4, 0] [0, 0, 0] 1 9 9).2.2.1 0 (by decide),
   (solv_area_boundary_amended [0, 4, 0] [0, 0, 0] 1 9 9).2.2.2 1 (by decide)⟩

/-- C10: for every inflection index, the slice integrated by get_solv_area_in
is exactly the bins below it and the slice integrated by get_solv_area_out is
exactly the bins from it on: the two slices concatenate back to the whole
profile, their lengths add to the bin count, each bin below the index appears
(at its own position) only in the inside slice and each bin from the index on
appears only in the outside slice. -/
theorem solv_area_partition (ta ci : List ℚ) (i : ℕ) (h : i ≤ ta.length) :
    ta.take i ++ ta.drop i = ta ∧
    (ta.take i).length = i ∧
    (ta.drop i).length = ta.length - i ∧
    (∀ j, j < i → (ta.take i)[j]? = ta[j]?) ∧
    (∀ j, i ≤ j → (ta.take i)[j]? = none) ∧
    (∀ j, i ≤ j → (ta.drop i)[j - i]? = ta[j]?) ∧
    get_solv_area_in ta ci i = (trapz (ta.take i), sq_sum (ci.take i)) ∧
    get_solv_area_out ta ci i = (trapz (ta.drop i), sq_sum (ci.drop i)) := by
  refine ⟨List.take_append_drop i ta, ?_, List.length_drop i ta, ?_, ?_, ?_, rfl, rfl⟩
  · simp [List.length_take]; omega
  · intro j hj
    exact List.getElem?_take_of_lt hj
  · intro j hj
    rw [List.getElem?_eq_none]
    calc (ta.take i).length ≤ i := by simp [List.length_take]
    _ ≤ j := hj
  · intro j hj
    rw [List.getElem?_drop]
    congr 1
    omega

/-- C10 witness: the partition at the counterexample profile. -/
theorem solv_area_partition_witness :
    [(0 : ℚ), 4, 0].take 1 ++ [(0 : ℚ), 4, 0].drop 1 = [0, 4, 0] ∧
    get_solv_area_in [0, 4, 0] [0, 0, 0] 1 =
      (trapz ([(0 : ℚ), 4, 0].take 1), sq_sum ([(0 : ℚ), 0, 0].take 1)) :=
  ⟨(solv_area_partition [0, 4, 0] [0, 0, 0] 1 (by decide)).1,
   (solv_area_partition [0, 4, 0] [0, 0, 0] 1 (by decide)).2.2.2.2.2.2.1⟩

/-- C7 counterexample: with 2 time samples and trim 2, the classifier
construction completes and the time average is NaN in every bin (numpy only
emits a RuntimeWarning for the empty mean); no error is raised. -/
theorem trim_nan_counterexample :
    time_average [[1, 2], [3, 4]] 2 0 = none ∧
    time_average [[1, 2], [3, 4]] 2 1 = none ∧
    ([[1, 2], [3, 4]] : List (List ℚ)).length = 2 := by
  decide

/-- C7 (amended): the number of time samples contributing to the average is
the total minus the trim, so raising the trim strictly reduces it while the
trim is below the total; with trim at or above the total the construction
still completes and the time average is NaN (encoded none) at every bin,
rather than an error. -/
theorem trim_monotone_amended (dens : List (List ℚ)) (t : ℕ) :
    contributing dens t = dens.length - t ∧
    (t < dens.length → contributing dens (t + 1) < contributing dens t) ∧
    (dens.length ≤ t → ∀ b, time_average dens t b = none) := by
  refine ⟨by simp [contributing], ?_, ?_⟩
  · intro h
    simp only [contributing, List.length_drop]
    omega
  · intro h b
    simp [time_average, List.drop_eq_nil_of_le h, npMean]

/-- C7 witness: the amended statement at a 2-sample profile with trims 1, 2
and 3. -/
theorem trim_monotone_amended_witness :
    contributing [[(1 : ℚ), 2], [3, 4]] 2 < contributing [[(1 : ℚ), 2], [3, 4]] 1 ∧
    time_average [[(1 : ℚ), 2], [3, 4]] 3 0 = none :=
  ⟨(trim_monotone_amended [[1, 2], [3, 4]] 1).2.1 (by decide),
   (trim_monotone_amended [[1, 2], [3, 4]] 3).2.2 (by decide) 0⟩

/-- C8: when the output subdirectory of a parameter point already exists,
sample_coord does not invoke the simulator, leaves the filesystem unchanged
and still classifies the existing output; and a second run of the same step
over the filesystem left by a first run never simulates and returns the same
classification as the first run. -/
theorem sample_coord_idempotent (env : SimEnv) (fs : FS) (p : Point)
    (r1 r2 : String) :
    (∀ c, fsFind p fs = some c →
      (sample_coord env r1 p fs).2.2 = false ∧
      (sample_coord env r1 p fs).2.1 = fs ∧
      (sample_coord env r1 p fs).1.1 = env.classify c) ∧
    ((sample_coord env r2 p (sample_coord env r1 p fs).2.1).2.2 = false ∧
      (sample_coord env r2 p (sample_coord env r1 p fs).2.1).1.1 =
        (sample_coord env r1 p fs).1.1) := by
  constructor
  · intro c hc
    simp [sample_coord, run_in_subdir, hc]
  · cases h : fsFind p fs with
    | some c => simp [sample_coord, run_in_subdir, h]
    | none => simp [sample_coord, run_in_subdir, h, fsFind]

/-- C8 witness: a pre-populated directory at (0, 0) is not re-simulated and is
classified from its existing contents. -/
theorem sample_coord_idempotent_witness :
    (sample_coord envW emptyStr (0, 0) fsW).2.2 = false ∧
    (sample_coord envW emptyStr (0, 0) fsW).2.1 = fsW ∧
    (sample_coord envW emptyStr (0, 0) fsW).1.1 = envW.classify emptyStr :=
  (sample_coord_idempotent envW fsW (0, 0) emptyStr emptyStr).1 emptyStr (by decide)

lemma indexInList_regimes (c : ℕ) (h : c ≤ 2) : indexInList c REGIMES ≠ none := by
  interval_cases c <;> decide

lemma distSq_midpoint_left (l r : Point) : distSq (midpoint l r) r = distSq l r / 4 := by
  simp only [distSq, midpoint]
  ring

lemma distSq_midpoint_right (l r : Point) : distSq l (midpoint l r) = distSq l r / 4 := by
  simp only [distSq, midpoint]
  ring

lemma exists_pow_bound (d thr : ℚ) (hthr : 0 < thr) : ∃ n : ℕ, d ≤ 4 ^ n * thr ^ 2 := by
  obtain ⟨n, hn⟩ := exists_nat_gt (d / thr ^ 2)
  refine ⟨n, ?_⟩
  have h2 : (n : ℚ) ≤ 4 ^ n := by
    calc (n : ℚ) ≤ 2 ^ n := by exact_mod_cast (Nat.lt_two_pow n).le
    _ ≤ 4 ^ n := by
      apply pow_le_pow_left₀ (by norm_num) (by norm_num)
  have ht : (0 : ℚ) < thr ^ 2 := by positivity
  have hd : d / thr ^ 2 ≤ 4 ^ n := le_trans hn.le h2
  calc d = d / thr ^ 2 * thr ^ 2 := by field_simp
  _ ≤ 4 ^ n * thr ^ 2 := mul_le_mul_of_nonneg_right hd ht.le

lemma bisect_fuel_bound (oracle : String → Point → ℕ × String) (thr : ℚ) :
    ∀ (n : ℕ) (st : String) (l r : Point) (b : ℕ × ℕ) (fuel : ℕ),
      distSq l r ≤ 4 ^ n * thr ^ 2 → n + 1 ≤ fuel →
      (recursive_bisect oracle fuel st l r b thr).1 ≠ Outcome.outOfFuel ∧
      (recursive_bisect oracle fuel st l r b thr).2 ≤ n := by
  intro n
  induction n with
  | zero =>
    intro st l r b fuel hd hf
    obtain ⟨f, rfl⟩ : ∃ f, fuel = f + 1 := ⟨fuel - 1, by omega⟩
    have hng : ¬ thr ^ 2 < distSq l r := by
      simp only [pow_zero, one_mul] at hd
      linarith
    simp [recursive_bisect, hng]
  | succ n ih =>
    intro st l r b fuel hd hf
    obtain ⟨f, rfl⟩ : ∃ f, fuel = f + 1 := ⟨fuel - 1, by omega⟩
    by_cases hlt : thr ^ 2 < distSq l r
    · have hq : (4 : ℚ) ^ (n + 1) * thr ^ 2 = 4 * (4 ^ n * thr ^ 2) := by ring
      rw [hq] at hd
      have hchild_r : distSq (midpoint l r) r ≤ 4 ^ n * thr ^ 2 := by
        rw [distSq_midpoint_left]
        linarith
      have hchild_l : distSq l (midpoint l r) ≤ 4 ^ n * thr ^ 2 := by
        rw [distSq_midpoint_right]
        linarith
      have hf' : n + 1 ≤ f := by omega
      cases hIdx : indexInList (oracle st (midpoint l r)).1 REGIMES with
      | none =>
        simp only [recursive_bisect, if_pos hlt, hIdx]
        exact ⟨by decide, by omega⟩
      | some idx =>
        simp only [recursive_bisect, if_pos hlt, hIdx]
        split_ifs with h1 h2
        · obtain ⟨hc1, hc2⟩ :=
            ih (oracle st (midpoint l r)).2 (midpoint l r) r b f hchild_r hf'
          exact ⟨by simpa using hc1, by simp; omega⟩
        · obtain ⟨hc1, hc2⟩ :=
            ih (oracle st (midpoint l r)).2 l (midpoint l r) b f hchild_l hf'
          exact ⟨by simpa using hc1, by simp; omega⟩
        · exact ⟨by decide, by omega⟩
    · simp [recursive_bisect, hlt]

/-- C1: one bisection step, with the bracket separation above the threshold
and the boundary a pair of distinct ordinal positions into REGIMES: when the
ordinal position of the midpoint classification is at most the low index, the
call recurses on (midpoint, right) adding one simulate/classify invocation;
when it is at least the high index it recurses on (left, midpoint); and when
it lies strictly between the two it terminates at once as AMBIGUOUS
(outcome ambiguous after exactly this one invocation), with no further
recursion. -/
theorem recursive_bisect_step (oracle : String → Point → ℕ × String)
    (st : String) (l r : Point) (b : ℕ × ℕ) (thr : ℚ) (fuel : ℕ)
    (hd : thr ^ 2 < distSq l r) :
    (∀ idx, indexInList (oracle st (midpoint l r)).1 REGIMES = some idx →
      idx ≤ b.1 →
      recursive_bisect oracle (fuel + 1) st l r b thr =
        ((recursive_bisect oracle fuel (oracle st (midpoint l r)).2
            (midpoint l r) r b thr).1,
         (recursive_bisect oracle fuel (oracle st (midpoint l r)).2
            (midpoint l r) r b thr).2 + 1)) ∧
    (∀ idx, indexInList (oracle st (midpoint l r)).1 REGIMES = some idx →
      b.1 < idx → b.2 ≤ idx →
      recursive_bisect oracle (fuel + 1) st l r b thr =
        ((recursive_bisect oracle fuel (oracle st (midpoint l r)).2
            l (midpoint l r) b thr).1,
         (recursive_bisect oracle fuel (oracle st (midpoint l r)).2
            l (midpoint l r) b thr).2 + 1)) ∧
    (∀ idx, indexInList (oracle st (midpoint l r)).1 REGIMES = some idx →
      b.1 < idx → idx < b.2 →
      recursive_bisect oracle (fuel + 1) st l r b thr =
        (Outcome.ambiguous, 1)) := by
  refine ⟨?_, ?_, ?_⟩
  · intro idx hidx h1
    simp only [recursive_bisect, if_pos hd, hidx, if_pos h1]
  · intro idx hidx h1 h2
    simp only [recursive_bisect, if_pos hd, hidx, if_neg (by omega : ¬ idx ≤ b.1),
      if_pos h2]
  · intro idx hidx h1 h2
    simp only [recursive_bisect, if_pos hd, hidx, if_neg (by omega : ¬ idx ≤ b.1),
      if_neg (by omega : ¬ b.2 ≤ idx)]

/-- C1 witness: with boundary (0, 2) over REGIMES = (2, 1, 0), a midpoint
classified ADSORBED (ordinal position 1, strictly between) terminates the
search as AMBIGUOUS after its single classify call. -/
theorem recursive_bisect_step_witness :
    recursive_bisect oracleW 5 emptyStr (0, 0) (1, 0) (0, 2) RCB_THRESHOLD =
      (Outcome.ambiguous, 1) :=
  (recursive_bisect_step oracleW emptyStr (0, 0) (1, 0) (0, 2) RCB_THRESHOLD 4
      (by norm_num [RCB_THRESHOLD, distSq])).2.2 1 (by decide) (by decide)
    (by decide)

/-- C9: the classifier output is always one of 0, 1, 2; every such value has a
position in REGIMES = (2, 1, 0), so the ValueError of list.index (and with it
the RuntimeError branch of recursive_bisect) is unreachable: with any oracle
whose classifications stay in 0..2, no run of recursive_bisect ends in the
classifyError outcome — every midpoint narrows the bracket or terminates. -/
theorem regimes_index_total (oracle : String → Point → ℕ × String)
    (h : ∀ st p, (oracle st p).1 ≤ 2) :
    (∀ ta ci i it ot, get_classification ta ci i it ot ≤ 2) ∧
    (∀ c, c ≤ 2 → indexInList c REGIMES ≠ none) ∧
    (∀ fuel st l r b thr,
      (recursive_bisect oracle fuel st l r b thr).1 ≠ Outcome.classifyError) := by
  refine ⟨?_, indexInList_regimes, ?_⟩
  · intro ta ci i it ot
    unfold get_classification
    split_ifs <;> omega
  · intro fuel
    induction fuel with
    | zero =>
      intro st l r b thr
      simp [recursive_bisect]
    | succ f ih =>
      intro st l r b thr
      by_cases hlt : thr ^ 2 < distSq l r
      · cases hIdx : indexInList (oracle st (midpoint l r)).1 REGIMES with
        | none => exact absurd hIdx (indexInList_regimes _ (h st _))
        | some idx =>
          simp only [recursive_bisect, if_pos hlt, hIdx]
          split_ifs
          · simpa using ih (oracle st (midpoint l r)).2 (midpoint l r) r b thr
          · simpa using ih (oracle st (midpoint l r)).2 l (midpoint l r) b thr
          · simp
      · simp [recursive_bisect, hlt]

/-- C9 witness: a bounded oracle never reaches the classifyError outcome. -/
theorem regimes_index_total_witness :
    (recursive_bisect oracleW 3 emptyStr (0, 0) (1, 0) (0, 1) RCB_THRESHOLD).1 ≠
      Outcome.classifyError :=
  (regimes_index_total oracleW (fun _ _ => (by decide : (1 : ℕ) ≤ 2))).2.2 3
    emptyStr (0, 0)
    (1, 0) (0, 1) RCB_THRESHOLD

/-- C2: each bisection step halves the bracket separation (midpoint to either
bound has a quarter of the squared distance); the recursion returns CONVERGED
immediately, with zero simulate/classify invocations, as soon as the
separation is at or below the tolerance; for every bracket a logarithmic bound
exists; and whenever the initial squared separation is at most 4 ^ n times the
squared tolerance (n at least log2 of separation over tolerance), the
recursion terminates within fuel n + 1 and performs at most n
simulate/classify invocations. -/
theorem recursive_bisect_convergence (oracle : String → Point → ℕ × String)
    (st : String) (l r : Point) (b : ℕ × ℕ) (thr : ℚ) (hthr : 0 < thr) :
    (distSq (midpoint l r) r = distSq l r / 4 ∧
      distSq l (midpoint l r) = distSq l r / 4) ∧
    (distSq l r ≤ thr ^ 2 → ∀ fuel,
      recursive_bisect oracle (fuel + 1) st l r b thr = (Outcome.converged, 0)) ∧
    (∃ n : ℕ, distSq l r ≤ 4 ^ n * thr ^ 2) ∧
    (∀ n fuel, distSq l r ≤ 4 ^ n * thr ^ 2 → n + 1 ≤ fuel →
      (recursive_bisect oracle fuel st l r b thr).1 ≠ Outcome.outOfFuel ∧
      (recursive_bisect oracle fuel st l r b thr).2 ≤ n) := by
  refine ⟨⟨distSq_midpoint_left l r, distSq_midpoint_right l r⟩, ?_, ?_, ?_⟩
  · intro hle fuel
    have hng : ¬ thr ^ 2 < distSq l r := not_lt.mpr hle
    simp [recursive_bisect, hng]
  · exact exists_pow_bound (distSq l r) thr hthr
  · intro n fuel hd hf
    exact bisect_fuel_bound oracle thr n st l r b fuel hd hf

/-- C2 witness: the unit-separation bracket with the RCB threshold 0.05
terminates within fuel 6 and at most 5 classify calls. -/
theorem recursive_bisect_convergence_witness :
    (0 : ℚ) < RCB_THRESHOLD ∧
    (recursive_bisect oracleW 6 emptyStr (0, 0) (1, 0) (0, 2) RCB_THRESHOLD).1 ≠
      Outcome.outOfFuel ∧
    (recursive_bisect oracleW 6 emptyStr (0, 0) (1, 0) (0, 2) RCB_THRESHOLD).2 ≤
      5 :=
  ⟨by norm_num [RCB_THRESHOLD],
   ((recursive_bisect_convergence oracleW emptyStr (0, 0) (1, 0) (0, 2)
        RCB_THRESHOLD (by norm_num [RCB_THRESHOLD])).2.2.2 5 6
      (by norm_num [RCB_THRESHOLD, distSq]) (by norm_num)).1,
   ((recursive_bisect_convergence oracleW emptyStr (0, 0) (1, 0) (0, 2)
        RCB_THRESHOLD (by norm_num [RCB_THRESHOLD])).2.2.2 5 6
      (by norm_num [RCB_THRESHOLD, distSq]) (by norm_num)).2⟩

lemma mem_flattenRows {r : α} :
    ∀ {L : List (List α)}, r ∈ flattenRows L ↔ ∃ s ∈ L, r ∈ s := by
  intro L
  induction L with
  | nil => simp [flattenRows]
  | cons s t ih => simp [flattenRows, ih]

lemma flattenRows_map (f : α → β) (L : List (List α)) :
    flattenRows (L.map (List.map f)) = (flattenRows L).map f := by
  induction L with
  | nil => rfl
  | cons s t ih => simp [flattenRows, ih]

lemma flattenRows_length (L : List (List α)) :
    (flattenRows L).length = (L.map List.length).sum := by
  induction L with
  | nil => rfl
  | cons s t ih => simp [flattenRows, ih]

lemma parseRows_ok (rows : List (List ℚ)) (h : ∀ r ∈ rows, 4 ≤ r.length) :
    parseRows rows = Except.ok (rows.map proj) := by
  induction rows with
  | nil => rfl
  | cons r t ih =>
    simp only [parseRows, usecols, if_pos (h r (by simp))]
    rw [ih (fun x hx => h x (by simp [hx]))]
    simp

lemma oneIdxs_append (xs ys : List (List ℚ)) :
    oneIdxs (xs ++ ys) = oneIdxs xs ++ (oneIdxs ys).map (· + xs.length) := by
  induction xs with
  | nil => simp [oneIdxs]
  | cons r t ih =>
    have hc : ∀ m : List ℕ, (m.map (· + t.length)).map (· + 1) =
        m.map (· + (t.length + 1)) := by
      intro m
      rw [List.map_map]
      apply List.map_congr_left
      intro x _
      simp [Function.comp]
      omega
    simp only [List.cons_append, oneIdxs, List.length_cons]
    split_ifs <;> simp [ih, List.map_append, hc]

lemma oneIdxs_nil_of (l : List (List ℚ)) (h : ∀ r ∈ l, ¬ r.getD 0 0 = 1) :
    oneIdxs l = [] := by
  induction l with
  | nil => rfl
  | cons r t ih =>
    simp only [oneIdxs, if_neg (h r (by simp))]
    rw [ih (fun x hx => h x (by simp [hx]))]
    rfl

lemma getD_of_getElem? (l : List α) (n : ℕ) (a d : α) (h : l[n]? = some a) :
    l.getD n d = a := by
  simp [List.getD_eq_getElem?_getD, h]

lemma oneIdxs_single (s : List (List ℚ)) (hlen : 1 ≤ s.length)
    (hrow : ∀ j, j < s.length → (s.getD j []).getD 0 0 = (j : ℚ) + 1) :
    oneIdxs s = [0] := by
  cases s with
  | nil => simp at hlen
  | cons a t =>
    have ha : a.getD 0 0 = 1 := by
      have := hrow 0 (by simp)
      simpa using this
    have ht : oneIdxs t = [] := by
      apply oneIdxs_nil_of
      intro r hr
      obtain ⟨n, hn⟩ := List.mem_iff_getElem?.1 hr
      have hlt : n < t.length := by
        by_contra hge
        rw [List.getElem?_eq_none (by omega)] at hn
        exact Option.noConfusion hn
      have hlt' : n + 1 < (a :: t).length := by
        simp only [List.length_cons]
        omega
      have hv := hrow (n + 1) hlt'
      rw [List.getD_cons_succ, getD_of_getElem? t n r [] hn] at hv
      rw [hv]
      push_cast
      intro hcontra
      have hnn : (0 : ℚ) ≤ (n : ℚ) := Nat.cast_nonneg n
      linarith
    simp only [oneIdxs, if_pos ha, ht]
    rfl

lemma oneIdxs_pos_at (l : List (List ℚ)) :
    ∀ (i x : ℕ), (oneIdxs l)[i]? = some x → i ≤ x := by
  induction l with
  | nil =>
    intro i x h
    simp [oneIdxs] at h
  | cons r t ih =>
    intro i x h
    simp only [oneIdxs] at h
    split_ifs at h with hr
    · cases i with
      | zero =>
        simp at h
        omega
      | succ j =>
        rw [List.getElem?_cons_succ, List.getElem?_map] at h
        obtain ⟨y, hy, rfl⟩ := Option.map_eq_some'.1 h
        have := ih j y hy
        omega
    · rw [List.getElem?_map] at h
      obtain ⟨y, hy, rfl⟩ := Option.map_eq_some'.1 h
      have := ih i y hy
      omega

lemma chunkAux_flatten (B : ℕ) (hB : 1 ≤ B) :
    ∀ (L : List (List α)) (fuel : ℕ), (∀ s ∈ L, s.length = B) →
      (flattenRows L).length ≤ fuel → chunkAux B fuel (flattenRows L) = some L := by
  intro L
  induction L with
  | nil =>
    intro fuel _ _
    cases fuel <;> rfl
  | cons s t ih =>
    intro fuel hall hfuel
    have hs : s.length = B := hall s (by simp)
    obtain ⟨x, xs, rfl⟩ : ∃ x xs, s = x :: xs := by
      cases s with
      | nil => simp at hs; omega
      | cons x xs => exact ⟨x, xs, rfl⟩
    have hxs : xs.length + 1 = B := by simpa using hs
    have hflat : flattenRows ((x :: xs) :: t) = x :: (xs ++ flattenRows t) := rfl
    have hlen : (flattenRows ((x :: xs) :: t)).length =
        xs.length + 1 + (flattenRows t).length := by
      simp [flattenRows]
      omega
    obtain ⟨f, rfl⟩ : ∃ f, fuel = f + 1 := ⟨fuel - 1, by omega⟩
    rw [hflat]
    have hnl : ¬ (x :: (xs ++ flattenRows t)).length < B := by
      simp
      omega
    have heq : x :: (xs ++ flattenRows t) = (x :: xs) ++ flattenRows t := rfl
    have htake : (x :: (xs ++ flattenRows t)).take B = x :: xs := by
      rw [heq, ← hs, List.take_left]
    have hdrop : (x :: (xs ++ flattenRows t)).drop B = flattenRows t := by
      rw [heq, ← hs, List.drop_left]
    simp only [chunkAux, if_neg hnl, htake, hdrop]
    rw [ih f (fun u hu => hall u (by simp [hu])) (by omega)]
    rfl

lemma chunkAux_not_dvd (B : ℕ) (hB : 1 ≤ B) :
    ∀ (fuel : ℕ) (l : List α), l.length ≤ fuel → ¬ B ∣ l.length →
      chunkAux B fuel l = none := by
  intro fuel
  induction fuel with
  | zero =>
    intro l h1 h2
    have h0 : l.length = 0 := by omega
    exact absurd (by simp [h0]) h2
  | succ f ih =>
    intro l h1 h2
    cases l with
    | nil => exact absurd (by simp) h2
    | cons x xs =>
      by_cases hlt : (x :: xs).length < B
      · simp only [chunkAux]
        rw [if_pos hlt]
      · have hge : B ≤ (x :: xs).length := by omega
        have hnd : ¬ B ∣ ((x :: xs).drop B).length := by
          rw [List.length_drop]
          intro hdvd
          apply h2
          have := Nat.dvd_add hdvd (dvd_refl B)
          rwa [Nat.sub_add_cancel hge] at this
        have hfl : ((x :: xs).drop B).length ≤ f := by
          simp only [List.length_drop, List.length_cons]
          simp only [List.length_cons] at h1
          omega
        simp only [chunkAux, if_neg hlt]
        rw [ih ((x :: xs).drop B) hfl hnd]
        rfl

lemma getD_map_proj (s0 : List (List ℚ)) (j : ℕ) (hj : j < s0.length) :
    (s0.map proj).getD j [] = proj (s0.getD j []) := by
  have h : s0[j]? = some (s0.get ⟨j, hj⟩) := List.getElem?_eq_getElem hj
  rw [List.getD_eq_getElem?_getD, List.getD_eq_getElem?_getD, List.getElem?_map, h]
  rfl

lemma load_density_ok (log : List LogLine) (rows : List (List ℚ))
    (arr : List (List (List ℚ))) (B : ℕ)
    (hrows : parseRows (dataRows log) = Except.ok rows)
    (h1 : (oneIdxs rows)[1]? = some B) (h2 : chunkExact B rows = some arr) :
    load_density log = Except.ok arr := by
  unfold load_density
  rw [hrows]
  show (match (oneIdxs rows)[1]? with
    | none => Except.error ("IndexError")
    | some num_chunks =>
      match chunkExact num_chunks rows with
      | none => Except.error ("ValueError")
      | some arr => Except.ok arr) = Except.ok arr
  rw [h1]
  show (match chunkExact B rows with
    | none => Except.error ("ValueError")
    | some arr => Except.ok arr) = Except.ok arr
  rw [h2]

lemma load_density_idx_err (log : List LogLine) (rows : List (List ℚ))
    (hrows : parseRows (dataRows log) = Except.ok rows)
    (h1 : (oneIdxs rows)[1]? = none) :
    load_density log = Except.error ("IndexError") := by
  unfold load_density
  rw [hrows]
  show (match (oneIdxs rows)[1]? with
    | none => Except.error ("IndexError")
    | some num_chunks =>
      match chunkExact num_chunks rows with
      | none => Except.error ("ValueError")
      | some arr => Except.ok arr) = Except.error ("IndexError")
  rw [h1]

lemma load_density_val_err (log : List LogLine) (rows : List (List ℚ)) (B : ℕ)
    (hrows : parseRows (dataRows log) = Except.ok rows)
    (h1 : (oneIdxs rows)[1]? = some B) (h2 : chunkExact B rows = none) :
    load_density log = Except.error ("ValueError") := by
  unfold load_density
  rw [hrows]
  show (match (oneIdxs rows)[1]? with
    | none => Except.error ("IndexError")
    | some num_chunks =>
      match chunkExact num_chunks rows with
      | none => Except.error ("ValueError")
      | some arr => Except.ok arr) = Except.error ("ValueError")
  rw [h1]
  show (match chunkExact B rows with
    | none => Except.error ("ValueError")
    | some arr => Except.ok arr) = Except.error ("ValueError")
  rw [h2]

/-- C6 counterexample: a log with a single time sample (one bin_index 1
marker) makes load_density raise IndexError, and a log whose inferred sample
length 2 does not divide the 5 parsed rows makes it raise ValueError; neither
failure is a MalformedProfileError, which the code never defines. -/
theorem load_density_error_counterexample :
    load_density [LogLine.timestep [1000, 2], LogLine.dataRow [1, 0, 0, 5],
        LogLine.dataRow [2, 1, 0, 3]] = Except.error ("IndexError") ∧
    load_density [LogLine.dataRow [1, 0, 0, 5], LogLine.dataRow [2, 1, 0, 3],
        LogLine.dataRow [1, 0, 0, 4], LogLine.dataRow [2, 1, 0, 2],
        LogLine.dataRow [1, 0, 0, 6]] = Except.error ("ValueError") ∧
    ("IndexError" : String) ≠ "MalformedProfileError" ∧
    ("ValueError" : String) ≠ "MalformedProfileError" :=
  ⟨load_density_idx_err _ [[1, 0, 5], [2, 1, 3]] rfl rfl,
   load_density_val_err _ [[1, 0, 5], [2, 1, 3], [1, 0, 4], [2, 1, 2], [1, 0, 6]]
     2 rfl rfl rfl,
   by decide, by decide⟩

/-- C6 (amended): on parsed rows with fewer than two bin_index 1 occurrences,
load_density fails with IndexError (from indexing the second match of
np.nonzero); when the inferred sample length does not evenly divide the row
count it fails with ValueError (from reshape); in both cases it fails rather
than returning an array, but with these built-in exceptions — the code defines
no MalformedProfileError. -/
theorem load_density_malformed_amended (log : List LogLine)
    (rows : List (List ℚ))
    (hrows : parseRows (dataRows log) = Except.ok rows) :
    ((oneIdxs rows)[1]? = none →
      load_density log = Except.error ("IndexError")) ∧
    (∀ B : ℕ, (oneIdxs rows)[1]? = some B → ¬ B ∣ rows.length →
      load_density log = Except.error ("ValueError")) := by
  constructor
  · intro h
    exact load_density_idx_err log rows hrows h
  · intro B hB hdvd
    have hB1 : 1 ≤ B := oneIdxs_pos_at rows 1 B hB
    refine load_density_val_err log rows B hrows hB ?_
    unfold chunkExact
    rw [if_neg (by omega : ¬ B = 0)]
    exact chunkAux_not_dvd B hB1 rows.length rows le_rfl hdvd

/-- C6 witness: the amended statement applied at a one-sample log and at an
unevenly divided log. -/
theorem load_density_malformed_amended_witness :
    load_density [LogLine.dataRow [1, 0, 0, 5], LogLine.dataRow [2, 1, 0, 3]] =
      Except.error ("IndexError") ∧
    load_density [LogLine.dataRow [1, 0, 0, 5], LogLine.dataRow [2, 1, 0, 3],
        LogLine.dataRow [1, 0, 0, 4], LogLine.dataRow [2, 1, 0, 2],
        LogLine.dataRow [1, 2, 0, 6]] = Except.error ("ValueError") :=
  ⟨(load_density_malformed_amended
      [LogLine.dataRow [1, 0, 0, 5], LogLine.dataRow [2, 1, 0, 3]]
      [[1, 0, 5], [2, 1, 3]] rfl).1 rfl,
   (load_density_malformed_amended
      [LogLine.dataRow [1, 0, 0, 5], LogLine.dataRow [2, 1, 0, 3],
        LogLine.dataRow [1, 0, 0, 4], LogLine.dataRow [2, 1, 0, 2],
        LogLine.dataRow [1, 2, 0, 6]]
      [[1, 0, 5], [2, 1, 3], [1, 0, 4], [2, 1, 2], [1, 2, 6]] rfl).2 2
      rfl (by decide)⟩

/-- C3: for every well-formed log, laid out as N time samples (N at least 2)
of B bins each (B at least 2) whose data rows carry at least 4 columns with
the bin index j + 1 in column 0, interleaved with timestep and comment lines,
load_density returns exactly the samples in original row order with columns
0, 1 and 3 retained per row — an N by B by 3 array whose bin-index column
cycles 1..B in every sample — and the per-sample bin count is inferred as the
flat-row index of the second occurrence of bin_index 1, which equals B. -/
theorem load_density_wellformed (samples : List (List (List ℚ))) (N B : ℕ)
    (log : List LogLine)
    (hN : samples.length = N) (hN2 : 2 ≤ N) (hB : 2 ≤ B)
    (hlen : ∀ s ∈ samples, s.length = B)
    (hwide : ∀ s ∈ samples, ∀ r ∈ s, 4 ≤ r.length)
    (hbin : ∀ s ∈ samples, ∀ j : ℕ, j < s.length →
      (s.getD j []).getD 0 0 = (j : ℚ) + 1)
    (hlog : dataRows log = flattenRows samples) :
    load_density log = Except.ok (samples.map (fun s => s.map proj)) ∧
    (samples.map (fun s => s.map proj)).length = N ∧
    (∀ s ∈ samples.map (fun s => s.map proj), s.length = B ∧
      ∀ r ∈ s, r.length = 3) ∧
    (∀ s ∈ samples.map (fun s => s.map proj), ∀ j : ℕ, j < s.length →
      (s.getD j []).getD 0 0 = (j : ℚ) + 1) ∧
    (oneIdxs ((flattenRows samples).map proj))[1]? = some B := by
  have hrow4 : ∀ r ∈ flattenRows samples, 4 ≤ r.length := by
    intro r hr
    obtain ⟨s, hs, hrs⟩ := mem_flattenRows.1 hr
    exact hwide s hs r hrs
  have hParse : parseRows (flattenRows samples) =
      Except.ok ((flattenRows samples).map proj) := parseRows_ok _ hrow4
  have hpmap : (flattenRows samples).map proj =
      flattenRows (samples.map (fun s => s.map proj)) :=
    (flattenRows_map proj samples).symm
  have hplen : ∀ s ∈ samples.map (fun s => s.map proj), s.length = B := by
    intro s hs
    obtain ⟨s0, hs0, rfl⟩ := List.mem_map.1 hs
    simp [hlen s0 hs0]
  have hpbin : ∀ s ∈ samples.map (fun s => s.map proj), ∀ j : ℕ, j < s.length →
      (s.getD j []).getD 0 0 = (j : ℚ) + 1 := by
    intro s hs j hj
    obtain ⟨s0, hs0, rfl⟩ := List.mem_map.1 hs
    rw [List.length_map] at hj
    rw [getD_map_proj s0 j hj]
    exact hbin s0 hs0 j hj
  have hIdx1 : (oneIdxs (flattenRows (samples.map (fun s => s.map proj))))[1]? =
      some B := by
    obtain ⟨a, t0, rfl⟩ : ∃ a t0, samples = a :: t0 := by
      cases samples with
      | nil => simp at hN; omega
      | cons a t0 => exact ⟨a, t0, rfl⟩
    obtain ⟨b, t, rfl⟩ : ∃ b t, t0 = b :: t := by
      cases t0 with
      | nil => simp at hN; omega
      | cons b t => exact ⟨b, t, rfl⟩
    have hpa : (a.map proj).length = B := hplen (a.map proj) (by simp)
    have hone1 : oneIdxs (a.map proj) = [0] :=
      oneIdxs_single (a.map proj) (by omega)
        (fun j hj => hpbin (a.map proj) (by simp) j hj)
    have hone2 : oneIdxs (b.map proj) = [0] :=
      oneIdxs_single (b.map proj)
        (by have := hplen (b.map proj) (by simp); omega)
        (fun j hj => hpbin (b.map proj) (by simp) j hj)
    have hfl : flattenRows ((a :: b :: t).map (fun s => s.map proj)) =
        (a.map proj) ++ ((b.map proj) ++
          flattenRows (t.map (fun s => s.map proj))) := rfl
    rw [hfl, oneIdxs_append, hone1, oneIdxs_append, hone2, hpa]
    simp
  have hchunk : chunkExact B
      (flattenRows (samples.map (fun s => s.map proj))) =
      some (samples.map (fun s => s.map proj)) := by
    unfold chunkExact
    rw [if_neg (by omega : ¬ B = 0)]
    exact chunkAux_flatten B (by omega) (samples.map (fun s => s.map proj)) _
      hplen le_rfl
  refine ⟨?_, by simp [hN], ?_, hpbin, by rw [hpmap]; exact hIdx1⟩
  · exact load_density_ok log ((flattenRows samples).map proj) _ B
      (by rw [hlog]; exact hParse) (by rw [hpmap]; exact hIdx1)
      (by rw [hpmap]; exact hchunk)
  · intro s hs
    obtain ⟨s0, hs0, rfl⟩ := List.mem_map.1 hs
    refine ⟨by simp [hlen s0 hs0], ?_⟩
    intro r hr
    obtain ⟨r0, _, rfl⟩ := List.mem_map.1 hr
    rfl

/-- C3 witness: a 2-sample, 2-bin log with interleaved comment and timestep
lines parses to the projected samples. -/
theorem load_density_wellformed_witness :
    load_density [LogLine.comment, LogLine.timestep [100, 2],
        LogLine.dataRow [1, 0, 0, 5], LogLine.dataRow [2, 1, 0, 3],
        LogLine.timestep [200, 2], LogLine.dataRow [1, 0, 0, 4],
        LogLine.dataRow [2, 1, 0, 2]] =
      Except.ok ([[[1, 0, 0, 5], [2, 1, 0, 3]],
        [[1, 0, 0, 4], [2, 1, 0, 2]]].map (fun s => s.map proj)) :=
  (load_density_wellformed
      [[[1, 0, 0, 5], [2, 1, 0, 3]], [[1, 0, 0, 4], [2, 1, 0, 2]]] 2 2
      [LogLine.comment, LogLine.timestep [100, 2],
        LogLine.dataRow [1, 0, 0, 5], LogLine.dataRow [2, 1, 0, 3],
        LogLine.timestep [200, 2], LogLine.dataRow [1, 0, 0, 4],
        LogLine.dataRow [2, 1, 0, 2]]
      rfl (by norm_num) (by norm_num) (by decide) (by decide)
      (by
        intro s hs j hj
        fin_cases hs <;> simp only [List.length_cons, List.length_nil] at hj <;>
          interval_cases j <;> norm_num)
      (by decide)).1

end Lampshade
